import Mathlib

/-!
Shallow embedding of the Modbus RTU framing/CRC engine from `src/main.py`
(`class ModbusRTU`): the CRC-16/Modbus computation (`compute_crc`), the
request frame builder (`build_modbus_message` plus the CRC attachment in
`process_input`), the parameter validation performed by `process_input`,
the response validator (`verify_crc`) and the payload extraction
(`response[3:-2]`). Bytes are modelled as natural numbers; Python's
unbounded integers are modelled by `Nat` with no masking, exactly as the
source performs no masking.
-/

namespace ModbusRTU

/-- One iteration of the inner loop of `compute_crc` (src/main.py lines
26-30): if the low bit of the accumulator is set, shift right one bit and
XOR with `0xA001`, otherwise just shift right one bit. -/
def crc_update (crc : Nat) : Nat :=
  if crc &&& 0x0001 ≠ 0 then (crc >>> 1) ^^^ 0xA001 else crc >>> 1

/-- `n` successive iterations of the inner loop (the source runs it 8
times per byte, `for _ in range(8)`). -/
def crc_rounds : Nat → Nat → Nat
  | 0, crc => crc
  | n + 1, crc => crc_rounds n (crc_update crc)

/-- Processing of one input byte by `compute_crc`: `crc ^= byte` followed
by 8 iterations of the inner loop. -/
def crc_byte_step (crc byte : Nat) : Nat :=
  crc_rounds 8 (crc ^^^ byte)

/-- `ModbusRTU.compute_crc` (src/main.py lines 15-31): accumulator starts
at `0xFFFF`, each byte is XOR-ed in and followed by 8 shift/XOR rounds. -/
def compute_crc (data : List Nat) : Nat :=
  data.foldl crc_byte_step 0xFFFF

/-- Python `int.to_bytes(n, 'big')` for an in-range value: `n` bytes,
most significant first (used by `build_modbus_message`). -/
def to_bytes_be : Nat → Nat → List Nat
  | 0, _ => []
  | n + 1, v => to_bytes_be n (v / 256) ++ [v % 256]

/-- Python `int.to_bytes(n, 'little')` for an in-range value: `n` bytes,
least significant first (used for the CRC in `process_input` line 120). -/
def to_bytes_le : Nat → Nat → List Nat
  | 0, _ => []
  | n + 1, v => v % 256 :: to_bytes_le n (v / 256)

/-- Python `int.from_bytes(l, byteorder='little')` (src/main.py line 70). -/
def from_bytes_le (l : List Nat) : Nat :=
  l.foldr (fun b acc => b + 256 * acc) 0

/-- `ModbusRTU.build_modbus_message` (src/main.py lines 33-49): address
and function code one byte each, starting register and register count two
bytes each in big-endian order. -/
def build_modbus_message (address function_code starting_register length : Nat) :
    List Nat :=
  to_bytes_be 1 address ++ to_bytes_be 1 function_code ++
    to_bytes_be 2 starting_register ++ to_bytes_be 2 length

/-- The CRC attachment performed by `process_input` (src/main.py lines
119-120): `message + crc.to_bytes(2, 'little')`. -/
def attach_crc (message : List Nat) : List Nat :=
  message ++ to_bytes_le 2 (compute_crc message)

/-- The parameter validation performed by `process_input` (src/main.py
lines 106-113), in source order; `some msg` models the raised
`ValueError(msg)`, `none` means the parameters are accepted. The last
check tests `0 <= length <= 125` while its message reads 1-125. -/
def validate_input (address function_code starting_register length : Nat) :
    Option String :=
  if ¬ (0 ≤ address ∧ address ≤ 255) then some "從站地址必須在 0-255 之間"
  else if ¬ (0 ≤ function_code ∧ function_code ≤ 255) then some "功能碼必須在 0-255 之間"
  else if ¬ (0 ≤ starting_register ∧ starting_register ≤ 65535) then
    some "起始寄存器地址必須在 0-65535 之間"
  else if ¬ (0 ≤ length ∧ length ≤ 125) then some "寄存器數量必須在 1-125 之間"
  else none

/-- `ModbusRTU.verify_crc` (src/main.py lines 62-73): responses of length
at most 2 are rejected; otherwise the trailing two bytes, read
little-endian, are compared with the CRC of the remaining prefix. -/
def verify_crc (response : List Nat) : Bool :=
  if 2 < response.length then
    from_bytes_le (response.drop (response.length - 2)) ==
      compute_crc (response.take (response.length - 2))
  else false

/-- The payload extraction `data = response[3:-2]` performed by
`process_input` after a successful CRC check (src/main.py line 132). -/
def extract_data (response : List Nat) : List Nat :=
  (response.take (response.length - 2)).drop 3

/-- Flipping bit `k` of the byte at index `i` of a byte list. -/
def flip_bit (l : List Nat) (i k : Nat) : List Nat :=
  l.set i (l.getD i 0 ^^^ 2 ^ k)

end ModbusRTU

namespace CRCSpec

/-- Modelled from the spec (section 4.1, step 3): one round of the
accumulator update, written with parity and division as the spec words
state it. -/
def crc_spec_step (acc : Nat) : Nat :=
  if acc % 2 = 1 then (acc / 2) ^^^ 0xA001 else acc / 2

/-- Modelled from the spec (section 4.1, step 3): the round repeated `k`
times. -/
def crc_spec_bits : Nat → Nat → Nat
  | 0, acc => acc
  | k + 1, acc => crc_spec_bits k (crc_spec_step acc)

/-- Modelled from the spec (section 4.1, step 2): XOR each byte into the
low bits of the accumulator, then run 8 rounds, over the whole input. -/
def crc_spec_go : Nat → List Nat → Nat
  | acc, [] => acc
  | acc, b :: bs => crc_spec_go (crc_spec_bits 8 (acc ^^^ b)) bs

/-- Modelled from the spec (section 4.1): the full CRC-16/Modbus
algorithm with accumulator initialised to `0xFFFF`. -/
def crc_spec (data : List Nat) : Nat :=
  crc_spec_go 0xFFFF data

end CRCSpec

namespace ModbusRTU

/-- Rewriting of the inner-loop body in parity/division form. -/
theorem crc_update_eq (c : Nat) :
    crc_update c = if c % 2 = 1 then (c / 2) ^^^ 0xA001 else c / 2 := by
  unfold crc_update
  simp only [Nat.and_one_is_mod, Nat.shiftRight_eq_div_pow, Nat.pow_one]
  rcases Nat.mod_two_eq_zero_or_one c with h | h <;> simp [h]

/-- XOR on `Nat` cancels on the right. -/
theorem xor_right_cancel {a b c : Nat} (h : a ^^^ c = b ^^^ c) : a = b := by
  have h2 := congrArg (fun x => x ^^^ c) h
  simpa [Nat.xor_assoc] using h2

/-- XOR on `Nat` cancels on the left. -/
theorem xor_left_cancel {a b c : Nat} (h : a ^^^ b = a ^^^ c) : b = c := by
  have h2 := congrArg (fun x => a ^^^ x) h
  simpa [← Nat.xor_assoc] using h2

/-- One inner-loop iteration keeps the accumulator below `2 ^ 16`. -/
theorem crc_update_lt {c : Nat} (h : c < 2 ^ 16) : crc_update c < 2 ^ 16 := by
  rw [crc_update_eq]
  have hdiv : c / 2 < 2 ^ 16 := Nat.lt_of_le_of_lt (Nat.div_le_self c 2) h
  split
  · exact Nat.xor_lt_two_pow hdiv (by norm_num)
  · exact hdiv

/-- XOR with `0xA001` sets bit 15 of any value below `2 ^ 15`. -/
theorem xor_A001_ge {a : Nat} (ha : a < 2 ^ 15) : 2 ^ 15 ≤ a ^^^ 0xA001 := by
  refine Nat.testBit_implies_ge ?_
  rw [Nat.testBit_xor, Nat.testBit_lt_two_pow ha]
  decide

/-- One inner-loop iteration is injective on 16-bit accumulators: the odd
branch lands above `2 ^ 15` while the even branch lands below it. -/
theorem crc_update_inj {c₁ c₂ : Nat} (h₁ : c₁ < 2 ^ 16) (h₂ : c₂ < 2 ^ 16)
    (he : crc_update c₁ = crc_update c₂) : c₁ = c₂ := by
  rw [crc_update_eq, crc_update_eq] at he
  rcases Nat.mod_two_eq_zero_or_one c₁ with e₁ | e₁ <;>
    rcases Nat.mod_two_eq_zero_or_one c₂ with e₂ | e₂
  · simp [e₁, e₂] at he
    omega
  · simp [e₁, e₂] at he
    have hge : 2 ^ 15 ≤ c₂ / 2 ^^^ 0xA001 := xor_A001_ge (by omega)
    omega
  · simp [e₁, e₂] at he
    have hge : 2 ^ 15 ≤ c₁ / 2 ^^^ 0xA001 := xor_A001_ge (by omega)
    omega
  · simp [e₁, e₂] at he
    omega

/-- Iterated inner-loop rounds keep the accumulator below `2 ^ 16`. -/
theorem crc_rounds_lt (n : Nat) : ∀ {c : Nat}, c < 2 ^ 16 → crc_rounds n c < 2 ^ 16 := by
  induction n with
  | zero => intro c hc; exact hc
  | succ m ih => intro c hc; exact ih (crc_update_lt hc)

/-- Iterated inner-loop rounds are injective on 16-bit accumulators. -/
theorem crc_rounds_inj (n : Nat) : ∀ {c₁ c₂ : Nat}, c₁ < 2 ^ 16 → c₂ < 2 ^ 16 →
    crc_rounds n c₁ = crc_rounds n c₂ → c₁ = c₂ := by
  induction n with
  | zero => intro c₁ c₂ _ _ he; exact he
  | succ m ih =>
    intro c₁ c₂ h₁ h₂ he
    exact crc_update_inj h₁ h₂ (ih (crc_update_lt h₁) (crc_update_lt h₂) he)

/-- Processing one byte keeps the accumulator below `2 ^ 16`. -/
theorem crc_byte_step_lt {c b : Nat} (hc : c < 2 ^ 16) (hb : b < 256) :
    crc_byte_step c b < 2 ^ 16 :=
  crc_rounds_lt 8 (Nat.xor_lt_two_pow hc (Nat.lt_trans hb (by norm_num)))

/-- Processing the same byte from different 16-bit accumulators yields
different accumulators. -/
theorem crc_byte_step_ne_state {c₁ c₂ b : Nat} (h₁ : c₁ < 2 ^ 16) (h₂ : c₂ < 2 ^ 16)
    (hb : b < 256) (hne : c₁ ≠ c₂) : crc_byte_step c₁ b ≠ crc_byte_step c₂ b := by
  intro he
  have hb16 : b < 2 ^ 16 := Nat.lt_trans hb (by norm_num)
  exact hne (xor_right_cancel
    (crc_rounds_inj 8 (Nat.xor_lt_two_pow h₁ hb16) (Nat.xor_lt_two_pow h₂ hb16) he))

/-- Processing different bytes from the same 16-bit accumulator yields
different accumulators. -/
theorem crc_byte_step_ne_byte {c b₁ b₂ : Nat} (hc : c < 2 ^ 16) (hb₁ : b₁ < 256)
    (hb₂ : b₂ < 256) (hne : b₁ ≠ b₂) : crc_byte_step c b₁ ≠ crc_byte_step c b₂ := by
  intro he
  have h₁ : b₁ < 2 ^ 16 := Nat.lt_trans hb₁ (by norm_num)
  have h₂ : b₂ < 2 ^ 16 := Nat.lt_trans hb₂ (by norm_num)
  exact hne (xor_left_cancel
    (crc_rounds_inj 8 (Nat.xor_lt_two_pow hc h₁) (Nat.xor_lt_two_pow hc h₂) he))

/-- The CRC fold keeps the accumulator below `2 ^ 16` over any byte list. -/
theorem crc_foldl_lt : ∀ (l : List Nat) {c : Nat}, c < 2 ^ 16 → (∀ b ∈ l, b < 256) →
    l.foldl crc_byte_step c < 2 ^ 16 := by
  intro l
  induction l with
  | nil => intro c hc _; exact hc
  | cons x xs ih =>
    intro c hc hb
    exact ih (crc_byte_step_lt hc (hb x (List.mem_cons_self x xs)))
      (fun b hbm => hb b (List.mem_cons_of_mem x hbm))

/-- The CRC fold over a common suffix preserves distinctness of 16-bit
accumulators. -/
theorem crc_foldl_ne : ∀ (l : List Nat) {c₁ c₂ : Nat}, c₁ < 2 ^ 16 → c₂ < 2 ^ 16 →
    (∀ b ∈ l, b < 256) → c₁ ≠ c₂ →
    l.foldl crc_byte_step c₁ ≠ l.foldl crc_byte_step c₂ := by
  intro l
  induction l with
  | nil => intro c₁ c₂ _ _ _ hne; exact hne
  | cons x xs ih =>
    intro c₁ c₂ h₁ h₂ hb hne
    have hx : x < 256 := hb x (List.mem_cons_self x xs)
    exact ih (crc_byte_step_lt h₁ hx) (crc_byte_step_lt h₂ hx)
      (fun b hbm => hb b (List.mem_cons_of_mem x hbm))
      (crc_byte_step_ne_state h₁ h₂ hx hne)

/-- Changing the single byte between a common prefix and a common suffix
changes the CRC. -/
theorem compute_crc_ne_of_middle_ne (u v : List Nat) {b b' : Nat}
    (hu : ∀ x ∈ u, x < 256) (hv : ∀ x ∈ v, x < 256) (hb : b < 256) (hb' : b' < 256)
    (hne : b ≠ b') : compute_crc (u ++ b :: v) ≠ compute_crc (u ++ b' :: v) := by
  unfold compute_crc
  rw [List.foldl_append, List.foldl_append, List.foldl_cons, List.foldl_cons]
  have hc : u.foldl crc_byte_step 0xFFFF < 2 ^ 16 := crc_foldl_lt u (by norm_num) hu
  exact crc_foldl_ne v (crc_byte_step_lt hc hb) (crc_byte_step_lt hc hb') hv
    (crc_byte_step_ne_byte hc hb hb' hne)

/-- Taking a prefix that extends `j` elements past an appended list splits
through the append. -/
theorem take_append_len (l₁ l₂ : List Nat) (j : Nat) :
    (l₁ ++ l₂).take (l₁.length + j) = l₁ ++ l₂.take j := by
  induction l₁ with
  | nil => simp
  | cons a t ih =>
    have hlen : (a :: t).length + j = (t.length + j) + 1 := by
      simp [List.length_cons]
      omega
    rw [List.cons_append, hlen, List.take_succ_cons, ih, List.cons_append]

/-- Dropping a prefix that extends `j` elements past an appended list
splits through the append. -/
theorem drop_append_len (l₁ l₂ : List Nat) (j : Nat) :
    (l₁ ++ l₂).drop (l₁.length + j) = l₂.drop j := by
  induction l₁ with
  | nil => simp
  | cons a t ih =>
    have hlen : (a :: t).length + j = (t.length + j) + 1 := by
      simp [List.length_cons]
      omega
    rw [List.cons_append, hlen, List.drop_succ_cons, ih]

end ModbusRTU

namespace ModbusRTU

/-- The inner-loop body agrees with the spec's round description. -/
theorem crc_update_eq_spec (c : Nat) : crc_update c = CRCSpec.crc_spec_step c := by
  rw [crc_update_eq]
  rfl

/-- Iterated rounds agree with the spec's iterated rounds. -/
theorem crc_rounds_eq_spec (n : Nat) : ∀ c : Nat, crc_rounds n c = CRCSpec.crc_spec_bits n c := by
  induction n with
  | zero => intro c; rfl
  | succ m ih =>
    intro c
    show crc_rounds m (crc_update c) = CRCSpec.crc_spec_bits m (CRCSpec.crc_spec_step c)
    rw [crc_update_eq_spec]
    exact ih _

/-- The CRC fold agrees with the spec's byte recursion from any
accumulator. -/
theorem crc_foldl_eq_spec_go : ∀ (l : List Nat) (c : Nat),
    l.foldl crc_byte_step c = CRCSpec.crc_spec_go c l := by
  intro l
  induction l with
  | nil => intro c; rfl
  | cons b bs ih =>
    intro c
    rw [List.foldl_cons]
    show bs.foldl crc_byte_step (crc_byte_step c b) =
      CRCSpec.crc_spec_go (CRCSpec.crc_spec_bits 8 (c ^^^ b)) bs
    rw [ih]
    show CRCSpec.crc_spec_go (crc_rounds 8 (c ^^^ b)) bs = _
    rw [crc_rounds_eq_spec]

/-- Numeric abbreviation used to move between `2 ^ 16` and `65536`. -/
theorem two_pow_sixteen : (2 : Nat) ^ 16 = 65536 := by norm_num

/-- Explicit byte list produced by `build_modbus_message` on in-range
parameters. -/
theorem build_modbus_message_eq {a f s c : Nat} (ha : a ≤ 255) (hf : f ≤ 255)
    (hs : s ≤ 65535) (hc : c ≤ 65535) :
    build_modbus_message a f s c = [a, f, s / 256, s % 256, c / 256, c % 256] := by
  have h1 : a % 256 = a := Nat.mod_eq_of_lt (by omega)
  have h2 : f % 256 = f := Nat.mod_eq_of_lt (by omega)
  have h3 : s / 256 % 256 = s / 256 := Nat.mod_eq_of_lt (by omega)
  have h4 : c / 256 % 256 = c / 256 := Nat.mod_eq_of_lt (by omega)
  simp [build_modbus_message, to_bytes_be, h1, h2, h3, h4]

/-- On in-range parameters every byte of the built frame is below 256. -/
theorem build_modbus_message_bytes {a f s c : Nat} (ha : a ≤ 255) (hf : f ≤ 255)
    (hs : s ≤ 65535) (hc : c ≤ 65535) :
    ∀ x ∈ build_modbus_message a f s c, x < 256 := by
  rw [build_modbus_message_eq ha hf hs hc]
  intro x hx
  simp only [List.mem_cons, List.not_mem_nil, or_false] at hx
  rcases hx with rfl | rfl | rfl | rfl | rfl | rfl <;> omega

/-- Explicit form of the CRC attachment when the CRC fits in 16 bits. -/
theorem attach_crc_eq {m : List Nat} (h : compute_crc m < 65536) :
    attach_crc m = m ++ [compute_crc m % 256, compute_crc m / 256] := by
  have h2 : compute_crc m / 256 % 256 = compute_crc m / 256 := Nat.mod_eq_of_lt (by omega)
  simp [attach_crc, to_bytes_le, h2]

end ModbusRTU

set_option maxRecDepth 40000

/-- C1: `compute_crc` implements CRC-16/Modbus bit-for-bit: it agrees with
the spec's accumulator algorithm (init `0xFFFF`, XOR each byte in, eight
shift/XOR-`0xA001` rounds per byte) on every byte sequence, and on the
known vector `[0x01, 0x03, 0x00, 0x00, 0x00, 0x02]` both compute `0x0BC4`
(wire bytes `C4 0B`). -/
theorem ModbusRTU.crc_matches_spec_algorithm :
    (∀ data : List Nat, ModbusRTU.compute_crc data = CRCSpec.crc_spec data) ∧
    ModbusRTU.compute_crc [0x01, 0x03, 0x00, 0x00, 0x00, 0x02] = 0x0BC4 ∧
    CRCSpec.crc_spec [0x01, 0x03, 0x00, 0x00, 0x00, 0x02] = 0x0BC4 := by
  refine ⟨fun data => ?_, by decide, by decide⟩
  unfold ModbusRTU.compute_crc CRCSpec.crc_spec
  exact ModbusRTU.crc_foldl_eq_spec_go data 0xFFFF

/-- C3 (code-bug evidence): the validation in `process_input` accepts
`register_count = 0` (its condition tests `0 <= length <= 125` although
its own message demands 1-125), while it does reject
`slave_address = 256` and `register_count = 126`. -/
theorem ModbusRTU.validate_input_range_check_eval :
    ModbusRTU.validate_input 1 3 0 0 = none ∧
    (ModbusRTU.validate_input 256 3 0 2).isSome = true ∧
    (ModbusRTU.validate_input 1 3 0 126).isSome = true :=
  ⟨rfl, rfl, rfl⟩

/-- C7: `verify_crc` is a total function into `Bool`: on every byte
sequence it returns `true` or `false` and nothing else. -/
theorem ModbusRTU.verify_crc_total (response : List Nat) :
    ModbusRTU.verify_crc response = true ∨ ModbusRTU.verify_crc response = false := by
  cases h : ModbusRTU.verify_crc response
  · exact Or.inr rfl
  · exact Or.inl rfl

/-- C8: the per-byte step keeps a 16-bit accumulator 16-bit, and
`compute_crc` of any byte sequence (each element below 256, as in a
Python `bytes`) is at most `0xFFFF`. -/
theorem ModbusRTU.compute_crc_bound :
    (∀ crc byte : Nat, crc < 2 ^ 16 → byte < 256 →
      ModbusRTU.crc_byte_step crc byte < 2 ^ 16) ∧
    (∀ data : List Nat, (∀ b ∈ data, b < 256) →
      ModbusRTU.compute_crc data ≤ 0xFFFF) := by
  refine ⟨fun crc byte hc hb => ModbusRTU.crc_byte_step_lt hc hb, fun data hd => ?_⟩
  have h := ModbusRTU.crc_foldl_lt data (c := 0xFFFF) (by norm_num) hd
  rw [ModbusRTU.two_pow_sixteen] at h
  unfold ModbusRTU.compute_crc
  omega

/-- C8 witness: the bound instantiated on the known request frame. -/
theorem ModbusRTU.compute_crc_bound_witness :
    ModbusRTU.compute_crc [1, 3, 0, 0, 0, 2] ≤ 0xFFFF :=
  ModbusRTU.compute_crc_bound.2 [1, 3, 0, 0, 0, 2] (by decide)

/-- C10: `compute_crc` is deterministic: equal byte sequences give equal
CRC values, with no dependence on any other state. -/
theorem ModbusRTU.compute_crc_deterministic (d₁ d₂ : List Nat) (h : d₁ = d₂) :
    ModbusRTU.compute_crc d₁ = ModbusRTU.compute_crc d₂ := by
  rw [h]

/-- C10 witness: determinism instantiated on the known request frame. -/
theorem ModbusRTU.compute_crc_deterministic_witness :
    ModbusRTU.compute_crc [1, 3, 0, 0, 0, 2] = ModbusRTU.compute_crc [1, 3, 0, 0, 0, 2] :=
  ModbusRTU.compute_crc_deterministic [1, 3, 0, 0, 0, 2] [1, 3, 0, 0, 0, 2] rfl

/-- C2: round-trip self-consistency: for any valid request parameters
(address and function code one byte, starting register 16-bit, register
count 1-125), the frame built by `build_modbus_message` with the CRC
appended little-endian passes `verify_crc`. -/
theorem ModbusRTU.roundtrip_verify (address function_code starting_register count : Nat)
    (ha : address ≤ 255) (hf : function_code ≤ 255) (hs : starting_register ≤ 65535)
    (hc1 : 1 ≤ count) (hc2 : count ≤ 125) :
    ModbusRTU.verify_crc (ModbusRTU.attach_crc
      (ModbusRTU.build_modbus_message address function_code starting_register count)) =
      true := by
  have hbytes : ∀ x ∈ ModbusRTU.build_modbus_message address function_code
      starting_register count, x < 256 :=
    ModbusRTU.build_modbus_message_bytes ha hf hs (by omega)
  have hcrc : ModbusRTU.compute_crc (ModbusRTU.build_modbus_message address function_code
      starting_register count) < 65536 := by
    have h := ModbusRTU.crc_foldl_lt (ModbusRTU.build_modbus_message address function_code
      starting_register count) (c := 0xFFFF) (by norm_num) hbytes
    rw [ModbusRTU.two_pow_sixteen] at h
    exact h
  have hme : (ModbusRTU.build_modbus_message address function_code starting_register
      count).length = 6 := by
    rw [ModbusRTU.build_modbus_message_eq ha hf hs (by omega)]
    rfl
  rw [ModbusRTU.attach_crc_eq hcrc]
  unfold ModbusRTU.verify_crc
  have hL : (ModbusRTU.build_modbus_message address function_code starting_register count ++
      [ModbusRTU.compute_crc (ModbusRTU.build_modbus_message address function_code
        starting_register count) % 256,
       ModbusRTU.compute_crc (ModbusRTU.build_modbus_message address function_code
        starting_register count) / 256]).length = 8 := by
    simp [hme]
  rw [hL, List.drop_left' (by omega), List.take_left' (by omega),
    if_pos (show 2 < 8 by norm_num)]
  simp only [ModbusRTU.from_bytes_le, List.foldr_cons, List.foldr_nil, beq_iff_eq]
  omega

/-- C2 witness: the round trip on the concrete request
(address 1, function 3, start 0, count 2). -/
theorem ModbusRTU.roundtrip_verify_witness :
    ModbusRTU.verify_crc (ModbusRTU.attach_crc
      (ModbusRTU.build_modbus_message 1 3 0 2)) = true :=
  ModbusRTU.roundtrip_verify 1 3 0 2 (by decide) (by decide) (by decide) (by decide)
    (by decide)

/-- C4: field packing: on in-range parameters `build_modbus_message`
packs address and function code one byte each and the two 16-bit fields
big-endian, and the CRC attachment appends the CRC low byte then high
byte, giving an 8-byte frame. -/
theorem ModbusRTU.build_request_packing (a f s c : Nat) (ha : a ≤ 255) (hf : f ≤ 255)
    (hs : s ≤ 65535) (hc1 : 1 ≤ c) (hc2 : c ≤ 125) :
    ModbusRTU.build_modbus_message a f s c = [a, f, s / 256, s % 256, c / 256, c % 256] ∧
    ModbusRTU.attach_crc (ModbusRTU.build_modbus_message a f s c) =
      ModbusRTU.build_modbus_message a f s c ++
        [ModbusRTU.compute_crc (ModbusRTU.build_modbus_message a f s c) % 256,
         ModbusRTU.compute_crc (ModbusRTU.build_modbus_message a f s c) / 256] ∧
    (ModbusRTU.attach_crc (ModbusRTU.build_modbus_message a f s c)).length = 8 := by
  have hb := ModbusRTU.build_modbus_message_eq ha hf hs (show c ≤ 65535 by omega)
  have hbytes := ModbusRTU.build_modbus_message_bytes ha hf hs (show c ≤ 65535 by omega)
  have hcrc : ModbusRTU.compute_crc (ModbusRTU.build_modbus_message a f s c) < 65536 := by
    have h := ModbusRTU.crc_foldl_lt (ModbusRTU.build_modbus_message a f s c)
      (c := 0xFFFF) (by norm_num) hbytes
    rw [ModbusRTU.two_pow_sixteen] at h
    exact h
  refine ⟨hb, ModbusRTU.attach_crc_eq hcrc, ?_⟩
  rw [ModbusRTU.attach_crc_eq hcrc]
  simp [hb]

/-- C4 witness: `build_modbus_message 1 3 1 2` is exactly
`[01, 03, 00, 01, 00, 02]` and the CRC-attached frame has 8 bytes. -/
theorem ModbusRTU.build_request_packing_witness :
    ModbusRTU.build_modbus_message 1 3 1 2 = [0x01, 0x03, 0x00, 0x01, 0x00, 0x02] ∧
    (ModbusRTU.attach_crc (ModbusRTU.build_modbus_message 1 3 1 2)).length = 8 := by
  have h := ModbusRTU.build_request_packing 1 3 1 2 (by decide) (by decide) (by decide)
    (by decide) (by decide)
  exact ⟨h.1.trans (by decide), h.2.2⟩

/-- C5: short-response boundary: any response of length at most 2
(including the empty one) is rejected, and a longer response is accepted
exactly when the CRC of all but the last two bytes equals the last two
bytes read as a little-endian 16-bit integer. -/
theorem ModbusRTU.verify_crc_boundary_and_split :
    (∀ b : List Nat, b.length ≤ 2 → ModbusRTU.verify_crc b = false) ∧
    (∀ b : List Nat, 2 < b.length →
      (ModbusRTU.verify_crc b = true ↔
        ModbusRTU.compute_crc (b.take (b.length - 2)) =
          ModbusRTU.from_bytes_le (b.drop (b.length - 2)))) := by
  constructor
  · intro b hb
    unfold ModbusRTU.verify_crc
    rw [if_neg (by omega)]
  · intro b hb
    unfold ModbusRTU.verify_crc
    rw [if_pos hb]
    simp only [beq_iff_eq]
    exact eq_comm

/-- C5 witness: the boundary on the empty and a 2-byte response, and the
split characterisation on a concrete 7-byte response. -/
theorem ModbusRTU.verify_crc_boundary_and_split_witness :
    ModbusRTU.verify_crc [] = false ∧
    ModbusRTU.verify_crc [1, 2] = false ∧
    (ModbusRTU.verify_crc [1, 3, 2, 0, 10, 56, 67] = true ↔
      ModbusRTU.compute_crc [1, 3, 2, 0, 10] = ModbusRTU.from_bytes_le [56, 67]) :=
  ⟨ModbusRTU.verify_crc_boundary_and_split.1 [] (by decide),
   ModbusRTU.verify_crc_boundary_and_split.1 [1, 2] (by decide),
   ModbusRTU.verify_crc_boundary_and_split.2 [1, 3, 2, 0, 10, 56, 67] (by decide)⟩

/-- C9: payload extraction: on the response `[01, 03, 02, 00, 0A]`
followed by its correctly computed little-endian CRC, `verify_crc`
succeeds and the extracted payload `response[3:-2]` is `[00, 0A]`; in
general the extraction skips the first 3 bytes and the trailing 2. -/
theorem ModbusRTU.payload_extraction :
    ModbusRTU.verify_crc ([0x01, 0x03, 0x02, 0x00, 0x0A] ++
      ModbusRTU.to_bytes_le 2 (ModbusRTU.compute_crc [0x01, 0x03, 0x02, 0x00, 0x0A])) =
      true ∧
    ModbusRTU.extract_data ([0x01, 0x03, 0x02, 0x00, 0x0A] ++
      ModbusRTU.to_bytes_le 2 (ModbusRTU.compute_crc [0x01, 0x03, 0x02, 0x00, 0x0A])) =
      [0x00, 0x0A] ∧
    (∀ response : List Nat, ModbusRTU.extract_data response =
      (response.take (response.length - 2)).drop 3) :=
  ⟨by decide, by decide, fun response => rfl⟩

/-- C6: tamper sensitivity: for any frame accepted by `verify_crc`,
flipping any single bit of any body byte (all bytes except the trailing
two CRC bytes) changes the CRC computed over the body, so `verify_crc`
rejects the tampered frame. -/
theorem ModbusRTU.tamper_rejected (frame : List Nat) (hbytes : ∀ x ∈ frame, x < 256)
    (hacc : ModbusRTU.verify_crc frame = true) (i k : Nat)
    (hi : i < frame.length - 2) (hk : k < 8) :
    ModbusRTU.compute_crc ((ModbusRTU.flip_bit frame i k).take (frame.length - 2)) ≠
      ModbusRTU.compute_crc (frame.take (frame.length - 2)) ∧
    ModbusRTU.verify_crc (ModbusRTU.flip_bit frame i k) = false := by
  have hlen3 : 3 ≤ frame.length := by omega
  have hi' : i < frame.length := by omega
  have hget : frame.getD i 0 = frame[i] := by
    rw [List.getD_eq_getElem?_getD, List.getElem?_eq_getElem hi']
    rfl
  have hdecomp : frame = frame.take i ++ frame[i] :: frame.drop (i + 1) := by
    rw [← List.drop_eq_getElem_cons hi', List.take_append_drop]
  have hset : ModbusRTU.flip_bit frame i k =
      frame.take i ++ (frame[i] ^^^ 2 ^ k) :: frame.drop (i + 1) := by
    unfold ModbusRTU.flip_bit
    rw [hget]
    exact List.set_eq_take_cons_drop _ hi'
  have hulen : (frame.take i).length = i := by
    rw [List.length_take]
    omega
  have hbody : ∀ x : Nat,
      (frame.take i ++ x :: frame.drop (i + 1)).take (frame.length - 2) =
        (frame.take i ++ [x]) ++
          (frame.drop (i + 1)).take (frame.length - (i + 3)) := by
    intro x
    have h1 : frame.take i ++ x :: frame.drop (i + 1) =
        (frame.take i ++ [x]) ++ frame.drop (i + 1) := by simp
    have h2 : (frame.take i ++ [x]).length = i + 1 := by simp [hulen]
    rw [h1, show frame.length - 2 =
      (frame.take i ++ [x]).length + (frame.length - (i + 3)) from by rw [h2]; omega,
      ModbusRTU.take_append_len]
  have htail : ∀ x : Nat,
      (frame.take i ++ x :: frame.drop (i + 1)).drop (frame.length - 2) =
        (frame.drop (i + 1)).drop (frame.length - (i + 3)) := by
    intro x
    have h1 : frame.take i ++ x :: frame.drop (i + 1) =
        (frame.take i ++ [x]) ++ frame.drop (i + 1) := by simp
    have h2 : (frame.take i ++ [x]).length = i + 1 := by simp [hulen]
    rw [h1, show frame.length - 2 =
      (frame.take i ++ [x]).length + (frame.length - (i + 3)) from by rw [h2]; omega,
      ModbusRTU.drop_append_len]
  have hA := hbody (frame[i] ^^^ 2 ^ k)
  rw [← hset] at hA
  have hB := hbody frame[i]
  rw [← hdecomp] at hB
  have hTA := htail (frame[i] ^^^ 2 ^ k)
  rw [← hset] at hTA
  have hTB := htail frame[i]
  rw [← hdecomp] at hTB
  have hub : ∀ y ∈ frame.take i, y < 256 := fun y hy =>
    hbytes y (List.mem_of_mem_take hy)
  have hvb : ∀ y ∈ (frame.drop (i + 1)).take (frame.length - (i + 3)), y < 256 :=
    fun y hy => hbytes y (List.mem_of_mem_drop (List.mem_of_mem_take hy))
  have hbi : frame[i] < 256 := hbytes _ (List.getElem_mem hi')
  have e8 : (2 : Nat) ^ 8 = 256 := by norm_num
  have hbi8 : frame[i] < 2 ^ 8 := by
    rw [e8]
    exact hbi
  have h2k8 : (2 : Nat) ^ k < 2 ^ 8 := Nat.pow_lt_pow_of_lt (by norm_num) hk
  have hbi' : frame[i] ^^^ 2 ^ k < 256 := by
    rw [← e8]
    exact Nat.xor_lt_two_pow hbi8 h2k8
  have hneq : frame[i] ^^^ 2 ^ k ≠ frame[i] := by
    intro h
    have h0 : frame[i] ^^^ 2 ^ k = frame[i] ^^^ 0 := by simpa using h
    have h1 := ModbusRTU.xor_left_cancel h0
    have h2 := Nat.two_pow_pos k
    omega
  have hcrcne : ModbusRTU.compute_crc ((frame.take i ++ [frame[i] ^^^ 2 ^ k]) ++
        (frame.drop (i + 1)).take (frame.length - (i + 3))) ≠
      ModbusRTU.compute_crc ((frame.take i ++ [frame[i]]) ++
        (frame.drop (i + 1)).take (frame.length - (i + 3))) := by
    rw [List.append_assoc, List.append_assoc, List.singleton_append,
      List.singleton_append]
    exact ModbusRTU.compute_crc_ne_of_middle_ne _ _ hub hvb hbi' hbi hneq
  have hmain : ModbusRTU.compute_crc
        ((ModbusRTU.flip_bit frame i k).take (frame.length - 2)) ≠
      ModbusRTU.compute_crc (frame.take (frame.length - 2)) := by
    rw [hA, hB]
    exact hcrcne
  refine ⟨hmain, ?_⟩
  have hflen : (ModbusRTU.flip_bit frame i k).length = frame.length := by
    simp [ModbusRTU.flip_bit]
  have hacc' : ModbusRTU.from_bytes_le (frame.drop (frame.length - 2)) =
      ModbusRTU.compute_crc (frame.take (frame.length - 2)) := by
    unfold ModbusRTU.verify_crc at hacc
    rw [if_pos (show 2 < frame.length by omega)] at hacc
    simpa using hacc
  unfold ModbusRTU.verify_crc
  rw [hflen, if_pos (show 2 < frame.length by omega), hTA, ← hTB, hacc', hB, hA]
  rw [beq_eq_false_iff_ne]
  exact hcrcne.symm

/-- C6 witness: flipping the lowest bit of the first byte of the valid
frame `[01, 03, 00, 00, 00, 02, C4, 0B]` is rejected. -/
theorem ModbusRTU.tamper_rejected_witness :
    ModbusRTU.verify_crc [1, 3, 0, 0, 0, 2, 196, 11] = true ∧
    ModbusRTU.verify_crc (ModbusRTU.flip_bit [1, 3, 0, 0, 0, 2, 196, 11] 0 0) = false :=
  ⟨by decide,
   (ModbusRTU.tamper_rejected [1, 3, 0, 0, 0, 2, 196, 11] (by decide) (by decide)
      0 0 (by decide) (by decide)).2⟩
